import Mathlib

/-!
Shallow embedding of the `eyeball` observable library
(`src/eyeball/src/observable.rs`).

The library wraps a bounded multi-consumer broadcast channel of capacity 1.
The channel itself is an external primitive (not under `src/`); its state is
modelled from the spec as a list of per-consumer pending queues plus a
closed flag: a send appends the value to every live consumer queue, and a
consumer reading while more than `channelCapacity` values are pending
receives a lag signal and skips to the most recent retained values.
All `Observable` operations are translated directly from the source.
-/

/-- Capacity of the notification channel: the source creates it with
`broadcast::channel(1)`. -/
def channelCapacity : Nat := 1

/-- Modelled from the spec: the state of the notification channel, the
foundational primitive the source takes from its async runtime
(`tokio::sync::broadcast`), which is not part of this repository's sources.
`receivers` holds one entry per consumer handle ever created: `some q` is a
live consumer whose still-undelivered published values are `q` (oldest
first), `none` is a dropped consumer. `closed` records that the producer
handle was released (the Observable was dropped). -/
structure Channel (T : Type) where
  receivers : List (Option (List T))
  closed : Bool
  deriving Repr, DecidableEq

/-- Number of currently live consumer handles
(`Sender::receiver_count`). -/
def Channel.receiver_count (c : Channel T) : Nat :=
  c.receivers.countP (fun r => r.isSome)

/-- Modelled from the spec: a channel send. With zero live consumers the
send fails and hands the value back (the channel stores nothing);
otherwise the value is appended to every live consumer's pending queue and
the number of live consumers is returned. -/
def Channel.send (c : Channel T) (v : T) : Except T (Channel T × Nat) :=
  if c.receiver_count = 0 then
    Except.error v
  else
    Except.ok
      ({ c with receivers := c.receivers.map (Option.map (fun q => q ++ [v])) },
       c.receiver_count)

/-- Modelled from the spec: registering a new consumer handle
(`Sender::subscribe`). The new consumer's queue starts empty: it sees only
values published after its creation. Returns the channel together with the
index identifying the new consumer. -/
def Channel.newReceiver (c : Channel T) : Channel T × Nat :=
  ({ c with receivers := c.receivers ++ [some []] }, c.receivers.length)

/-- A value whose changes will be broadcast to subscribers
(`struct Observable<T> { value: T, sender: Sender<T> }`). -/
structure Observable (T : Type) where
  value : T
  sender : Channel T
  deriving Repr, DecidableEq

namespace Observable

/-- Create a new `Observable` with the given initial value
(`Observable::new`): a fresh channel with no consumers, not closed. -/
def new (value : T) : Observable T :=
  { value := value, sender := { receivers := [], closed := false } }

/-- Obtain a new subscriber (`Observable::subscribe`). The subscriber is
identified by the index of its consumer handle in the channel. -/
def subscribe (this : Observable T) : Observable T × Nat :=
  let p := this.sender.newReceiver
  ({ this with sender := p.1 }, p.2)

/-- Get the inner value (`Observable::get`; the source returns a shared
reference). -/
def get (this : Observable T) : T :=
  this.value

/-- Broadcast the current value to subscribers
(`Observable::broadcast_update`): skip the send when no receiver is live,
and absorb a send error with `unwrap_or(0)`. -/
def broadcast_update (this : Observable T) : Observable T :=
  if this.sender.receiver_count ≠ 0 then
    match this.sender.send this.value with
    | Except.ok (c, _num_receivers) => { this with sender := c }
    | Except.error _ => this
  else
    this

/-- Set the inner value, notify subscribers and return the previous value
(`Observable::replace`, built on `mem::replace`). -/
def replace (this : Observable T) (value : T) : Observable T × T :=
  let result := this.value
  (broadcast_update { this with value := value }, result)

/-- Set the inner value to the given value and notify subscribers
(`Observable::set`): calls `replace` and discards the previous value. -/
def set (this : Observable T) (value : T) : Observable T :=
  (this.replace value).1

/-- Update the inner value with the closure and notify subscribers
unconditionally (`Observable::update`). -/
def update (this : Observable T) (f : T → T) : Observable T :=
  broadcast_update { this with value := f this.value }

/-- Update the inner value and notify subscribers only if the updated
value does not equal the previous value (`Observable::update_eq`): the
previous value is cloned before the closure runs. -/
def update_eq [DecidableEq T] (this : Observable T) (f : T → T) :
    Observable T :=
  let prev := this.value
  let updated : Observable T := { this with value := f this.value }
  if updated.value ≠ prev then broadcast_update updated else updated

/-- Update the inner value and notify subscribers only if the hash of the
updated value differs from the hash of the previous value
(`Observable::update_hash`). The `DefaultHasher` computation is abstracted
as a function `hash : T → Nat`. -/
def update_hash (this : Observable T) (hash : T → Nat) (f : T → T) :
    Observable T :=
  let prev_hash := hash this.value
  let updated : Observable T := { this with value := f this.value }
  let new_hash := hash updated.value
  if prev_hash ≠ new_hash then broadcast_update updated else updated

/-- Drop the `Observable` (end of its lifecycle): the producer handle is
released and the channel is marked closed for all consumer handles. -/
def drop (this : Observable T) : Channel T :=
  { this.sender with closed := true }

end Observable

/-- Modelled from the spec: the two-outcome internal result of one pull on
a consumer handle (`BroadcastStream::poll_next` item), before the
subscriber's lag-absorbing loop: a value, a lag signal carrying the number
of missed values, end of stream after closure, or nothing available yet. -/
inductive RecvStep (T : Type) where
  | value : T → RecvStep T
  | lagged : Nat → RecvStep T
  | closedEnd : RecvStep T
  | noValue : RecvStep T
  deriving Repr, DecidableEq

/-- Result of polling the subscriber stream: `ready (some v)` yields a
value, `ready none` signals end of the sequence, `pending` means no value
is available yet (`Poll<Option<T>>`). -/
inductive Poll (α : Type) where
  | ready : α → Poll α
  | pending : Poll α
  deriving Repr, DecidableEq

/-- Modelled from the spec: one raw receive on a consumer handle whose
pending queue is `q`, with `closed` the channel's closed flag. An empty
queue yields `noValue` (or `closedEnd` once the channel is closed). If
more than `channelCapacity` values are pending, the oldest ones beyond the
capacity were recycled: the consumer gets a lag signal counting them and
its queue skips to the retained suffix. Otherwise the oldest pending value
is delivered. -/
def recvStep (closed : Bool) (q : List T) : RecvStep T × List T :=
  match q with
  | [] => ((if closed then RecvStep.closedEnd else RecvStep.noValue), [])
  | v :: rest =>
    if (v :: rest).length > channelCapacity then
      (RecvStep.lagged ((v :: rest).length - channelCapacity),
       (v :: rest).drop ((v :: rest).length - channelCapacity))
    else
      (RecvStep.value v, rest)

theorem recvStep_snd_length_lt (closed : Bool) (v : T) (rest : List T) :
    ((recvStep closed (v :: rest)).2).length < (v :: rest).length := by
  simp only [recvStep, channelCapacity]
  split
  · next h =>
    simp only [List.length_drop]
    simp only [List.length_cons] at h ⊢
    omega
  · next h =>
    simp

/-- The subscriber's pull (`<Subscriber as Stream>::poll_next`): loop on
the raw receive, retrying on a lag signal until a value, end of stream or
a pending outcome is obtained. -/
def poll_next (closed : Bool) (q : List T) : Poll (Option T) × List T :=
  match h : recvStep closed q with
  | (RecvStep.value v, rest) => (Poll.ready (some v), rest)
  | (RecvStep.closedEnd, rest) => (Poll.ready none, rest)
  | (RecvStep.noValue, rest) => (Poll.pending, rest)
  | (RecvStep.lagged _, rest) => poll_next closed rest
termination_by q.length
decreasing_by
  cases q with
  | nil =>
    rw [recvStep] at h
    cases closed <;> simp at h
  | cons v vs =>
    have := recvStep_snd_length_lt closed v vs
    rw [h] at this
    exact this

/-- Poll consumer handle `i` of a channel: runs the subscriber pull loop
on that consumer's queue and writes the remaining queue back. A dropped or
unknown handle is never polled; it is mapped to `pending` with the channel
unchanged. -/
def Channel.poll (c : Channel T) (i : Nat) : Poll (Option T) × Channel T :=
  match c.receivers[i]? with
  | some (some q) =>
    let p := poll_next c.closed q
    (p.1, { c with receivers := c.receivers.set i (some p.2) })
  | _ => (Poll.pending, c)

/-- Poll subscriber `i` of a live observable. -/
def Observable.poll (this : Observable T) (i : Nat) :
    Poll (Option T) × Observable T :=
  let p := this.sender.poll i
  (p.1, { this with sender := p.2 })

/-- Modelled from the spec: the sequence of raw receive outcomes a
consumer sees when draining its queue without intervening publishes. -/
def drainSteps (closed : Bool) (q : List T) : List (RecvStep T) :=
  match q with
  | [] => []
  | v :: rest =>
    let p := recvStep closed (v :: rest)
    p.1 :: drainSteps closed p.2
termination_by q.length
decreasing_by
  exact recvStep_snd_length_lt closed v rest

/-- A mutation of the observable through its public writer interface. -/
inductive Mutation (T : Type) where
  | set : T → Mutation T
  | replace : T → Mutation T
  | update : (T → T) → Mutation T

/-- Apply one mutation to the observable. -/
def applyMut (o : Observable T) : Mutation T → Observable T
  | Mutation.set v => o.set v
  | Mutation.replace v => (o.replace v).1
  | Mutation.update f => o.update f

/-- Apply a sequence of mutations in order. -/
def applyMuts (o : Observable T) (ms : List (Mutation T)) : Observable T :=
  ms.foldl applyMut o

/-- The value a mutation installs, given the value current before it. -/
def installedValue (x : T) : Mutation T → T
  | Mutation.set v => v
  | Mutation.replace v => v
  | Mutation.update f => f x

/-- Publish each value of `vs` in order with `set`, polling subscriber `i`
once after each publish (an eagerly consuming subscriber task), and
collect the poll outcomes. -/
def runEager (o : Observable T) (i : Nat) (vs : List T) :
    List (Poll (Option T)) × Observable T :=
  match vs with
  | [] => ([], o)
  | v :: rest =>
    let p := (o.set v).poll i
    let r := runEager p.2 i rest
    (p.1 :: r.1, r.2)

/-- The concrete scenario of the spec: `Observable::new(0)`; subscribe s1;
`set(1)`; subscribe s2; `set(2)`; drop. Each subscriber is polled eagerly
(it is an awaiting task, woken on each publish): s1 after `set(1)`, both
after `set(2)`, both after the drop. The two components are the outcomes
s1 and s2 observe. -/
def scenario : List (Poll (Option Nat)) × List (Poll (Option Nat)) :=
  let r0 := (Observable.new 0).subscribe
  let s1 := r0.2
  let o1 := r0.1.set 1
  let p1 := o1.poll s1
  let r2 := p1.2.subscribe
  let s2 := r2.2
  let o2 := r2.1.set 2
  let p2 := o2.poll s1
  let p3 := p2.2.poll s2
  let c := p3.2.drop
  let p4 := c.poll s1
  let p5 := p4.2.poll s2
  ([p1.1, p2.1, p4.1], [p3.1, p5.1])

theorem map_append_of_count_zero (l : List (Option (List T))) (v : T)
    (h : l.countP (fun r => r.isSome) = 0) :
    l.map (Option.map (fun q => q ++ [v])) = l := by
  rw [List.countP_eq_zero] at h
  have hx : ∀ x ∈ l, Option.map (fun q => q ++ [v]) x = x := by
    intro x hx
    have hs := h x hx
    cases x with
    | none => rfl
    | some q => simp at hs
  calc l.map (Option.map (fun q => q ++ [v]))
      = l.map id := List.map_congr_left hx
    _ = l := List.map_id l

theorem broadcast_update_eq (o : Observable T) :
    o.broadcast_update =
      { o with sender := { o.sender with
          receivers :=
            o.sender.receivers.map (Option.map (fun q => q ++ [o.value])) } } := by
  unfold Observable.broadcast_update Channel.send
  by_cases h : o.sender.receiver_count = 0
  · rw [map_append_of_count_zero _ _ h]
    simp [h]
  · simp [h]

/-- C1: `replace` returns the value current immediately before the call,
and after any sequence of `set`/`replace`/`update` calls, `get` returns
exactly the value the last call installed. -/
theorem replace_returns_previous_and_get_tracks (o : Observable T) (v : T)
    (ms : List (Mutation T)) (m : Mutation T) :
    (o.replace v).2 = o.get ∧
    (applyMuts o (ms ++ [m])).get
      = installedValue ((applyMuts o ms).get) m := by
  constructor
  · rfl
  · rw [applyMuts, List.foldl_append]
    simp only [List.foldl_cons, List.foldl_nil]
    cases m with
    | set w =>
      simp [applyMut, Observable.set, Observable.replace, installedValue,
        Observable.get, broadcast_update_eq]
    | replace w =>
      simp [applyMut, Observable.replace, installedValue, Observable.get,
        broadcast_update_eq]
    | update f =>
      simp [applyMut, Observable.update, installedValue, Observable.get,
        broadcast_update_eq, applyMuts]

/-- C5: `update` applies the mutator in place and then unconditionally
publishes the result to every live subscriber, even when the mutator made
no actual change. -/
theorem update_always_publishes (o : Observable T) (f : T → T) :
    (o.update f).value = f o.value ∧
    (o.update f).sender.receivers
      = o.sender.receivers.map (Option.map (fun q => q ++ [f o.value])) ∧
    (o.update f).sender.closed = o.sender.closed := by
  rw [Observable.update, broadcast_update_eq]
  exact ⟨rfl, rfl, rfl⟩

/-- C9: `set v` is exactly `replace v` with the returned previous value
discarded, and it always publishes `v` to every live subscriber, even when
`v` equals the previous value. -/
theorem set_equals_replace_discarding (o : Observable T) (v : T) :
    o.set v = (o.replace v).1 ∧
    (o.set v).value = v ∧
    (o.set v).sender.receivers
      = o.sender.receivers.map (Option.map (fun q => q ++ [v])) ∧
    (o.set v).sender.closed = o.sender.closed := by
  refine ⟨rfl, ?_, ?_, ?_⟩ <;>
    rw [Observable.set, Observable.replace, broadcast_update_eq]

/-- C7: with zero live subscribers the publish step skips the channel send
entirely and that makes no difference to any consumer queue; and a channel
send failure (subscribers disconnected) is absorbed, never surfaced to the
writer. -/
theorem broadcast_skip_and_absorb (o : Observable T) :
    (o.sender.receiver_count = 0 →
      o.broadcast_update = o ∧
      o.sender.receivers.map (Option.map (fun q => q ++ [o.value]))
        = o.sender.receivers) ∧
    (∀ v : T, o.sender.send v = Except.error v → o.broadcast_update = o) := by
  constructor
  · intro h
    refine ⟨?_, map_append_of_count_zero _ _ h⟩
    rw [Observable.broadcast_update]
    simp [h]
  · intro v hv
    rw [Channel.send] at hv
    by_cases h : o.sender.receiver_count = 0
    · rw [Observable.broadcast_update]
      simp [h]
    · simp [h] at hv

/-- C7 witness: a freshly created observable has no subscribers, its send
fails, and its publish step leaves it unchanged. -/
theorem broadcast_skip_and_absorb_witness :
    (Observable.new 0 : Observable Nat).broadcast_update = Observable.new 0 ∧
    (Observable.new 0 : Observable Nat).sender.send 7 = Except.error 7 := by
  have h := broadcast_skip_and_absorb (Observable.new 0 : Observable Nat)
  have hs : (Observable.new 0 : Observable Nat).sender.send 7
      = Except.error 7 := rfl
  exact ⟨h.2 7 hs, hs⟩

theorem update_eq_of_eq [DecidableEq T] (o : Observable T) (f : T → T)
    (h : f o.value = o.value) :
    o.update_eq f = { o with value := f o.value } := by
  simp [Observable.update_eq, h]

theorem update_eq_of_ne [DecidableEq T] (o : Observable T) (f : T → T)
    (h : ¬ f o.value = o.value) :
    o.update_eq f = Observable.broadcast_update { o with value := f o.value } := by
  simp [Observable.update_eq, h]

theorem update_hash_of_eq (o : Observable T) (hash : T → Nat) (f : T → T)
    (h : hash (f o.value) = hash o.value) :
    o.update_hash hash f = { o with value := f o.value } := by
  simp [Observable.update_hash, h]

theorem update_hash_of_ne (o : Observable T) (hash : T → Nat) (f : T → T)
    (h : ¬ hash (f o.value) = hash o.value) :
    o.update_hash hash f
      = Observable.broadcast_update { o with value := f o.value } := by
  have h2 : ¬ hash o.value = hash (f o.value) := fun he => h he.symm
  simp [Observable.update_hash, h2]

/-- C2: `update_eq` stores the mutator's output and publishes if and only
if that output differs from the pre-mutation snapshot: an unchanged value
produces zero deliveries (the channel is untouched), a changed value
appends exactly one delivery to every live subscriber's queue. -/
theorem update_eq_publishes_iff_changed [DecidableEq T]
    (o : Observable T) (f : T → T) :
    (o.update_eq f).value = f o.value ∧
    (f o.value = o.value → (o.update_eq f).sender = o.sender) ∧
    (f o.value ≠ o.value →
      (o.update_eq f).sender.receivers
        = o.sender.receivers.map (Option.map (fun q => q ++ [f o.value])) ∧
      (o.update_eq f).sender.closed = o.sender.closed) := by
  refine ⟨?_, ?_, ?_⟩
  · by_cases h : f o.value = o.value
    · rw [update_eq_of_eq o f h]
    · rw [update_eq_of_ne o f h, broadcast_update_eq]
  · intro h
    rw [update_eq_of_eq o f h]
  · intro h
    rw [update_eq_of_ne o f h, broadcast_update_eq]
    exact ⟨rfl, rfl⟩

/-- C2 witness: on `Observable::new(0)` with one subscriber, the identity
mutator delivers nothing while the successor mutator delivers exactly one
value to the subscriber. -/
theorem update_eq_publishes_iff_changed_witness :
    ((Observable.new 0 : Observable Nat).subscribe.1.update_eq
        (fun n => n)).sender
      = (Observable.new 0 : Observable Nat).subscribe.1.sender ∧
    ((Observable.new 0 : Observable Nat).subscribe.1.update_eq
        (fun n => n + 1)).sender.receivers
      = [some [1]] := by
  have h1 := update_eq_publishes_iff_changed
    ((Observable.new 0 : Observable Nat).subscribe.1) (fun n => n)
  have h2 := update_eq_publishes_iff_changed
    ((Observable.new 0 : Observable Nat).subscribe.1) (fun n => n + 1)
  refine ⟨h1.2.1 (by decide), ?_⟩
  rw [(h2.2.2 (by decide)).1]
  decide

/-- C6: `update_hash` stores the mutator's output and publishes if and
only if the hash of the new value differs from the hash of the snapshot;
when hash equality coincides with value equality it is extensionally the
same operation as `update_eq`. -/
theorem update_hash_publishes_iff_hash_changed [DecidableEq T]
    (o : Observable T) (hash : T → Nat) (f : T → T) :
    (o.update_hash hash f).value = f o.value ∧
    (hash (f o.value) = hash o.value →
      (o.update_hash hash f).sender = o.sender) ∧
    (hash (f o.value) ≠ hash o.value →
      (o.update_hash hash f).sender.receivers
        = o.sender.receivers.map (Option.map (fun q => q ++ [f o.value])) ∧
      (o.update_hash hash f).sender.closed = o.sender.closed) ∧
    ((∀ a b : T, hash a = hash b ↔ a = b) →
      o.update_hash hash f = o.update_eq f) := by
  refine ⟨?_, ?_, ?_, ?_⟩
  · by_cases h : hash (f o.value) = hash o.value
    · rw [update_hash_of_eq o hash f h]
    · rw [update_hash_of_ne o hash f h, broadcast_update_eq]
  · intro h
    rw [update_hash_of_eq o hash f h]
  · intro h
    rw [update_hash_of_ne o hash f h, broadcast_update_eq]
    exact ⟨rfl, rfl⟩
  · intro hinj
    by_cases h : hash (f o.value) = hash o.value
    · rw [update_hash_of_eq o hash f h,
        update_eq_of_eq o f ((hinj _ _).mp h)]
    · rw [update_hash_of_ne o hash f h,
        update_eq_of_ne o f (fun he => h ((hinj _ _).mpr he))]

/-- C6 witness: over `Nat` with the identity as hash (so hash equality is
value equality), `update_hash` with the successor mutator publishes to the
one subscriber, and agrees with `update_eq`. -/
theorem update_hash_publishes_iff_hash_changed_witness :
    ((Observable.new 0 : Observable Nat).subscribe.1.update_hash
        (fun n => n) (fun n => n + 1)).sender.receivers
      = [some [1]] ∧
    (Observable.new 0 : Observable Nat).subscribe.1.update_hash
        (fun n => n) (fun n => n + 1)
      = (Observable.new 0 : Observable Nat).subscribe.1.update_eq
          (fun n => n + 1) := by
  have h := update_hash_publishes_iff_hash_changed
    ((Observable.new 0 : Observable Nat).subscribe.1)
    (fun n => n) (fun n => n + 1)
  constructor
  · rw [(h.2.2.1 (by decide)).1]
    decide
  · exact h.2.2.2 (fun a b => Iff.rfl)

theorem recvStep_cons (closed : Bool) (v : T) (rest : List T) :
    recvStep closed (v :: rest)
      = if (v :: rest).length > channelCapacity then
          (RecvStep.lagged ((v :: rest).length - channelCapacity),
           (v :: rest).drop ((v :: rest).length - channelCapacity))
        else (RecvStep.value v, rest) := rfl

theorem poll_next_nil (closed : Bool) :
    poll_next closed ([] : List T)
      = ((if closed then Poll.ready none else Poll.pending), []) := by
  rw [poll_next.eq_def]
  cases closed <;> simp [recvStep]

theorem poll_next_cons (closed : Bool) (v : T) (rest : List T) :
    poll_next closed (v :: rest)
      = if (v :: rest).length > channelCapacity then
          poll_next closed
            ((v :: rest).drop ((v :: rest).length - channelCapacity))
        else (Poll.ready (some v), rest) := by
  conv_lhs => rw [poll_next.eq_def]
  by_cases h : (v :: rest).length > channelCapacity
  · rw [if_pos h]
    split
    · next v1 rest1 heq =>
      rw [recvStep_cons, if_pos h] at heq
      simp at heq
    · next rest1 heq =>
      rw [recvStep_cons, if_pos h] at heq
      simp at heq
    · next rest1 heq =>
      rw [recvStep_cons, if_pos h] at heq
      simp at heq
    · next n rest1 heq =>
      rw [recvStep_cons, if_pos h] at heq
      simp only [Prod.mk.injEq, RecvStep.lagged.injEq] at heq
      rw [← heq.2]
  · rw [if_neg h]
    split
    · next v1 rest1 heq =>
      rw [recvStep_cons, if_neg h] at heq
      simp only [Prod.mk.injEq, RecvStep.value.injEq] at heq
      rw [heq.1, heq.2]
    · next rest1 heq =>
      rw [recvStep_cons, if_neg h] at heq
      simp at heq
    · next rest1 heq =>
      rw [recvStep_cons, if_neg h] at heq
      simp at heq
    · next n rest1 heq =>
      rw [recvStep_cons, if_neg h] at heq
      simp at heq

theorem poll_next_single (closed : Bool) (v : T) :
    poll_next closed [v] = (Poll.ready (some v), []) := by
  rw [poll_next_cons]
  simp [channelCapacity]

theorem drop_length_sub_one (q : List T) (h : q ≠ []) :
    q.drop (q.length - 1) = [q.getLast h] := by
  induction q with
  | nil => exact absurd rfl h
  | cons v rest ih =>
    cases rest with
    | nil => simp
    | cons w rest2 =>
      have hne : w :: rest2 ≠ [] := List.cons_ne_nil _ _
      have hlen : (v :: w :: rest2).length - 1 = (w :: rest2).length := by simp
      rw [hlen, List.getLast_cons hne]
      have hd : (v :: w :: rest2).drop (w :: rest2).length
          = (w :: rest2).drop ((w :: rest2).length - 1) := by
        simp [List.length_cons]
      rw [hd, ih hne]

theorem poll_next_nonempty (closed : Bool) (q : List T) (h : q ≠ []) :
    poll_next closed q = (Poll.ready (some (q.getLast h)), []) := by
  rcases q with _ | ⟨v, rest⟩
  · exact absurd rfl h
  rw [poll_next_cons]
  by_cases hl : (v :: rest).length > channelCapacity
  · rw [if_pos hl]
    have hc : (v :: rest).length - channelCapacity = (v :: rest).length - 1 := by
      simp [channelCapacity]
    rw [hc, drop_length_sub_one (v :: rest) h, poll_next_single]
  · rw [if_neg hl]
    have h1 : rest = [] := by
      rcases rest with _ | ⟨w, r2⟩
      · rfl
      · exact absurd (by simp [channelCapacity]) hl
    subst h1
    simp

theorem scenario_eval : scenario
    = ([Poll.ready (some 1), Poll.ready (some 2), Poll.ready none],
       [Poll.ready (some 2), Poll.ready none]) := by
  simp [scenario, Observable.new, Observable.subscribe, Channel.newReceiver,
    Observable.set, Observable.replace, Observable.broadcast_update,
    Channel.send, Channel.receiver_count, Observable.poll, Channel.poll,
    Observable.drop, poll_next_single, poll_next_nil]

theorem drainSteps_nil (closed : Bool) :
    drainSteps closed ([] : List T) = [] := by
  rw [drainSteps.eq_def]

theorem drainSteps_cons (closed : Bool) (v : T) (rest : List T) :
    drainSteps closed (v :: rest)
      = (recvStep closed (v :: rest)).1
        :: drainSteps closed (recvStep closed (v :: rest)).2 := by
  rw [drainSteps.eq_def]

theorem eager_step (o : Observable T) (i : Nat) (v : T)
    (hq : o.sender.receivers[i]? = some (some []))
    (hc : o.sender.closed = false) :
    ((o.set v).poll i).1 = Poll.ready (some v) ∧
    ((o.set v).poll i).2.sender.receivers[i]? = some (some []) ∧
    ((o.set v).poll i).2.sender.closed = false := by
  have hset : o.set v
      = Observable.mk v
          (Channel.mk (o.sender.receivers.map (Option.map (fun q => q ++ [v])))
            o.sender.closed) := by
    rw [Observable.set, Observable.replace, broadcast_update_eq]
  have hi : i < o.sender.receivers.length := by
    by_contra hcon
    push_neg at hcon
    rw [List.getElem?_eq_none (by omega)] at hq
    exact Option.noConfusion hq
  have hri : (o.set v).sender.receivers[i]? = some (some [v]) := by
    rw [hset]
    simp [List.getElem?_map, hq]
  have hclosed : (o.set v).sender.closed = false := by
    rw [hset]
    exact hc
  have hpoll : (o.set v).sender.poll i
      = (Poll.ready (some v),
         { (o.set v).sender with
             receivers := (o.set v).sender.receivers.set i (some []) }) := by
    unfold Channel.poll
    rw [hri]
    simp [hclosed, poll_next_single]
  have hilen : i < (o.set v).sender.receivers.length := by
    rw [hset]
    simpa using hi
  refine ⟨?_, ?_, ?_⟩
  · rw [Observable.poll, hpoll]
  · rw [Observable.poll, hpoll]
    simp [List.getElem?_set, hilen]
  · rw [Observable.poll, hpoll]
    exact hclosed

theorem runEager_spec (i : Nat) (vs : List T) : ∀ (o : Observable T),
    o.sender.receivers[i]? = some (some []) →
    o.sender.closed = false →
    (runEager o i vs).1 = vs.map (fun v => Poll.ready (some v)) ∧
    (runEager o i vs).2.sender.receivers[i]? = some (some []) ∧
    (runEager o i vs).2.sender.closed = false := by
  induction vs with
  | nil =>
    intro o hq hc
    exact ⟨rfl, hq, hc⟩
  | cons v rest ih =>
    intro o hq hc
    obtain ⟨h1, h2, h3⟩ := eager_step o i v hq hc
    obtain ⟨g1, g2, g3⟩ := ih ((o.set v).poll i).2 h2 h3
    simp only [runEager, List.map_cons]
    exact ⟨by rw [h1, g1], g2, g3⟩

theorem drop_poll_end (o : Observable T) (i : Nat)
    (hq : o.sender.receivers[i]? = some (some [])) :
    (o.drop.poll i).1 = Poll.ready none := by
  have hq2 : (o.drop).receivers[i]? = some (some []) := hq
  unfold Channel.poll
  rw [hq2]
  have hcl : (o.drop).closed = true := rfl
  simp [hcl, poll_next_nil]

/-- C3: a pull never surfaces a lag to the caller: the subscriber's pull
loops internally on the lag outcome, so on an empty queue it reports
pending (or end of sequence once the channel is closed), and on any
non-empty queue — however far behind — it yields the most recent still
retained value. The caller only ever sees values, pending, or
end-of-sequence. -/
theorem poll_absorbs_lag (closed : Bool) (q : List T) :
    (q = [] → poll_next closed q
        = ((if closed then Poll.ready none else Poll.pending), [])) ∧
    (∀ h : q ≠ [], poll_next closed q
        = (Poll.ready (some (q.getLast h)), [])) := by
  constructor
  · intro h
    subst h
    exact poll_next_nil closed
  · intro h
    exact poll_next_nonempty closed q h

/-- C3 witness: a closed empty queue ends the sequence, and a subscriber
three values behind on a capacity-1 channel receives the latest value
rather than an error. -/
theorem poll_absorbs_lag_witness :
    poll_next true ([] : List Nat) = (Poll.ready none, []) ∧
    poll_next false [1, 2, 3] = (Poll.ready (some 3), []) := by
  have h1 := poll_absorbs_lag true ([] : List Nat)
  have h2 := poll_absorbs_lag false [1, 2, 3]
  constructor
  · simpa using h1.1 rfl
  · simpa using h2.2 (by decide)

/-- C8: the channel retains at most `channelCapacity = 1` pending value:
an overrun read skips down to exactly that much history and reports a lag
signal counting the skipped values; and every value sitting in a live
consumer's queue is either delivered exactly or its loss is flagged by a
lag signal while the consumer drains — never silently skipped. -/
theorem consumer_detects_misses (closed : Bool) (q : List T) (v : T)
    (hv : v ∈ q) :
    (RecvStep.value v ∈ drainSteps closed q ∨
     RecvStep.lagged (q.length - channelCapacity) ∈ drainSteps closed q) ∧
    (q.length > channelCapacity →
      (recvStep closed q).1 = RecvStep.lagged (q.length - channelCapacity) ∧
      ((recvStep closed q).2).length = channelCapacity) := by
  constructor
  · rcases q with _ | ⟨w, rest⟩
    · simp at hv
    · by_cases h : (w :: rest).length > channelCapacity
      · right
        rw [drainSteps_cons, recvStep_cons, if_pos h]
        simp
      · left
        have h1 : rest = [] := by
          rcases rest with _ | ⟨u, r2⟩
          · rfl
          · exact absurd (by simp [channelCapacity]) h
        subst h1
        have hw : v = w := by simpa using hv
        subst hw
        rw [drainSteps_cons, recvStep_cons, if_neg h]
        simp [drainSteps_nil]
  · intro h
    rcases q with _ | ⟨w, rest⟩
    · simp [channelCapacity] at h
    · rw [recvStep_cons, if_pos h]
      refine ⟨rfl, ?_⟩
      simp only [List.length_drop]
      simp only [List.length_cons, channelCapacity] at h ⊢
      omega

/-- C8 witness: a consumer three values behind on the capacity-1 channel
gets a lag signal counting 2 missed values while draining, the overrun
read reports that lag, and afterwards exactly 1 value of history
remains. -/
theorem consumer_detects_misses_witness :
    (RecvStep.value 2 ∈ drainSteps false [1, 2, 3] ∨
     RecvStep.lagged 2 ∈ drainSteps false [1, 2, 3]) ∧
    (recvStep false [1, 2, 3]).1 = RecvStep.lagged 2 ∧
    ((recvStep false [1, 2, 3]).2).length = channelCapacity := by
  have h := consumer_detects_misses false [1, 2, 3] 2 (by decide)
  exact ⟨h.1, h.2 (by decide)⟩

/-- C4: an eagerly consuming subscriber (a task awaiting the stream,
polled once after each publish) starting from a fresh, empty queue
observes exactly the published values in publish order — no replay of the
value current at subscribe time — and after the observable is dropped its
next pull reports end of sequence. Moreover the spec's concrete scenario
holds: after `new 0`, subscribe s1, `set 1`, subscribe s2, `set 2`, drop,
s1 yields 1, 2, end and s2 yields 2, end. -/
theorem subscriber_sees_publishes_in_order (o : Observable T) (i : Nat)
    (vs : List T)
    (hq : o.sender.receivers[i]? = some (some []))
    (hc : o.sender.closed = false) :
    (runEager o i vs).1 = vs.map (fun v => Poll.ready (some v)) ∧
    ((runEager o i vs).2.drop.poll i).1 = Poll.ready none ∧
    scenario
      = ([Poll.ready (some 1), Poll.ready (some 2), Poll.ready none],
         [Poll.ready (some 2), Poll.ready none]) := by
  obtain ⟨h1, h2, h3⟩ := runEager_spec i vs o hq hc
  exact ⟨h1, drop_poll_end _ i h2, scenario_eval⟩

/-- C4 witness: a subscriber on a fresh observable polled after each of
the publishes 5, 6 yields 5 then 6, and end of sequence after the drop. -/
theorem subscriber_sees_publishes_in_order_witness :
    (runEager ((Observable.new 0 : Observable Nat).subscribe.1) 0 [5, 6]).1
      = [Poll.ready (some 5), Poll.ready (some 6)] ∧
    ((runEager ((Observable.new 0 : Observable Nat).subscribe.1)
        0 [5, 6]).2.drop.poll 0).1 = Poll.ready none := by
  have h := subscriber_sees_publishes_in_order
    ((Observable.new 0 : Observable Nat).subscribe.1) 0 [5, 6]
    (by decide) (by decide)
  exact ⟨h.1, h.2.1⟩

/-- C10: after `update_eq` or `update_hash` the stored value is always the
mutator's output, even when publication is suppressed: the snapshot (or
its hash) only gates the publish, it never rolls the value back, and in
the suppressed case the channel is untouched while `get` returns the
mutator's output. -/
theorem conditional_updates_keep_mutator_output [DecidableEq T]
    (o : Observable T) (hash : T → Nat) (f : T → T) :
    (o.update_eq f).get = f o.value ∧
    (o.update_hash hash f).get = f o.value ∧
    (f o.value = o.value → (o.update_eq f).sender = o.sender) ∧
    (hash (f o.value) = hash o.value →
      (o.update_hash hash f).sender = o.sender) := by
  refine ⟨?_, ?_, ?_, ?_⟩
  · by_cases h : f o.value = o.value
    · rw [update_eq_of_eq o f h]
      rfl
    · rw [update_eq_of_ne o f h, broadcast_update_eq]
      rfl
  · by_cases h : hash (f o.value) = hash o.value
    · rw [update_hash_of_eq o hash f h]
      rfl
    · rw [update_hash_of_ne o hash f h, broadcast_update_eq]
      rfl
  · intro h
    rw [update_eq_of_eq o f h]
  · intro h
    rw [update_hash_of_eq o hash f h]

/-- C10 witness: on value 5 with one subscriber, a mutator computing
`n * 1` leaves the channel untouched while `get` returns its output; with
a constant hash, the successor mutator's publish is suppressed yet `get`
returns 6. -/
theorem conditional_updates_keep_mutator_output_witness :
    ((Observable.new 5 : Observable Nat).subscribe.1.update_eq
        (fun n => n * 1)).get = 5 ∧
    ((Observable.new 5 : Observable Nat).subscribe.1.update_eq
        (fun n => n * 1)).sender
      = (Observable.new 5 : Observable Nat).subscribe.1.sender ∧
    ((Observable.new 5 : Observable Nat).subscribe.1.update_hash
        (fun _ => 0) (fun n => n + 1)).get = 6 ∧
    ((Observable.new 5 : Observable Nat).subscribe.1.update_hash
        (fun _ => 0) (fun n => n + 1)).sender
      = (Observable.new 5 : Observable Nat).subscribe.1.sender := by
  have h1 := conditional_updates_keep_mutator_output
    ((Observable.new 5 : Observable Nat).subscribe.1)
    (fun _ => 0) (fun n => n * 1)
  have h2 := conditional_updates_keep_mutator_output
    ((Observable.new 5 : Observable Nat).subscribe.1)
    (fun _ => 0) (fun n => n + 1)
  exact ⟨h1.1, h1.2.2.1 (by decide), h2.2.1, h2.2.2.2 (by decide)⟩
